import Mathlib

/-!
Verification development for the lsyncd daemon (`src/lsyncd.c`):
a shallow embedding of its watch registry, path builder, sync invoker,
event dispatcher and exclude-file loader, together with theorems about
the behaviour of these operations.

Conventions of the embedding:
* machine `int` values become `Int`, sizes and exit statuses become `Nat`;
* C strings become Lean `String` (a freed / NULL pointer becomes `none`
  of an `Option String`); `strlen` becomes `String.length`;
* the inotify kernel calls, the filesystem, and the child processes are
  external: they enter the model as oracle parameters (`kern`, `fs`,
  child exit statuses) and as traces recorded in the results;
* unbounded C recursion over the watch table is driven by an explicit
  `fuel` argument; theorems hypothesise enough fuel for the tree at hand.
-/

namespace Lsyncd

/-! ## Inotify mask bits (from `sys/inotify.h`, as used by lsyncd.c) -/

/-- Mask bit IN_CLOSE_WRITE (0x008). -/
def IN_CLOSE_WRITE : Nat := 0x008

/-- Mask bit IN_MOVED_FROM (0x040). -/
def IN_MOVED_FROM : Nat := 0x040

/-- Mask bit IN_MOVED_TO (0x080). -/
def IN_MOVED_TO : Nat := 0x080

/-- Mask bit IN_CREATE (0x100). -/
def IN_CREATE : Nat := 0x100

/-- Mask bit IN_DELETE (0x200). -/
def IN_DELETE : Nat := 0x200

/-- Mask bit IN_IGNORED (0x8000). -/
def IN_IGNORED : Nat := 0x8000

/-- Mask bit IN_ISDIR (0x40000000). -/
def IN_ISDIR : Nat := 0x40000000

/-- PATH_MAX of the platform (limits.h). -/
def PATH_MAX : Nat := 4096

/-- Size of the on-stack path buffers `char pathname[PATH_MAX+1]`. -/
def PATH_SZ : Nat := PATH_MAX + 1

/-- Exit code LSYNCD_EXECRSYNCFAIL (3): rsync execution somehow failed. -/
def LSYNCD_EXECRSYNCFAIL : Nat := 3

/-- Exit code LSYNCD_TOOMANYDIRECTORYEXCLUDES (5). -/
def LSYNCD_TOOMANYDIRECTORYEXCLUDES : Nat := 5

/-- Child-internal exit code LSYNCD_INTERNALFAIL (255), set after a failed execv. -/
def LSYNCD_INTERNALFAIL : Nat := 255

/-! ## Global option state (`option_*`, `flag_*`, `exclude_dirs`)

The C globals that the core reads are bundled into one record. -/

/-- The global option/flag state of lsyncd that the dispatcher and the
sync invoker consult. -/
structure Config where
  rsync_binary : String
  exclude_file : Option String
  exclude_dirs : List String
  flag_dryrun : Bool
  option_target : String
deriving DecidableEq, Repr

/-! ## Sync Invoker (`rsync`, lsyncd.c lines 365-432) -/

/-- The three exit-status branches of `rsync`'s waitpid handling:
`ok` is the `return true` path, `fatal` is the
`WEXITSTATUS(status)==LSYNCD_INTERNALFAIL` branch (execv failure logged at
LOG_ERROR), `transient` is the other non-zero branch (logged at LOG_NORMAL).
Both failure branches `return false`. -/
inductive SyncOutcome
  | ok
  | transient
  | fatal
deriving DecidableEq, Repr

/-- One run of the `rsync` function: the argument vector it assembled, the
boolean it returned, whether it forked a child at all, and which
exit-status branch it took. -/
structure RsyncRun where
  argv : List String
  ret : Bool
  spawned : Bool
  outcome : SyncOutcome
deriving DecidableEq, Repr

/-- The argument vector assembled by `rsync` (lines 375-384), in the order
the `argv[argc++] = ...` statements execute.  The final NULL sentinel of
the C array is the end of the Lean list.  The `argc > MAX_ARGS` check of
line 386 is omitted: `argc` is at most 8 and `MAX_ARGS` is 100, so the
check can never fire. -/
def rsyncArgv (cfg : Config) (src dest : String) (recursive : Bool) : List String :=
  let opts := if recursive then "-ltr" else "-ltd"
  let a := [cfg.rsync_binary, "--delete", opts]
  let a := a ++ (match cfg.exclude_file with
    | some f => ["--exclude-from", f]
    | none => [])
  let a := a ++ [src]
  a ++ [dest]

/-- The `rsync` function (lines 365-432).  `childExit` is the exit status
the forked child would report (`WEXITSTATUS(status)`); it is an oracle for
the external binary.  With `flag_dryrun` set the function returns true
right after the debug dump of the argument vector, before the `fork`. -/
def rsync (cfg : Config) (src dest : String) (recursive : Bool) (childExit : Nat) : RsyncRun :=
  let argv := rsyncArgv cfg src dest recursive
  if cfg.flag_dryrun then ⟨argv, true, false, .ok⟩
  else if childExit = LSYNCD_INTERNALFAIL then ⟨argv, false, true, .fatal⟩
  else if childExit ≠ 0 then ⟨argv, false, true, .transient⟩
  else ⟨argv, true, true, .ok⟩

/-! ## Watch Registry (`struct dir_watch`, `dir_watches`, lines 83-158) -/

/-- One slot of the `dir_watches` array.  `wd` is the kernel watch
descriptor, negative (-1) for a tombstoned/free slot; `dirname` and
`destname` are heap strings, `none` for NULL; `parent` is the index of
the parent slot or -1. -/
structure DirWatch where
  wd : Int
  dirname : Option String
  destname : Option String
  parent : Int
deriving DecidableEq, Repr

/-- The registry: the `dir_watches` array (its first `dir_watch_num`
entries, which are the only ones the code ever reads) together with the
allocated capacity `dir_watch_size`. -/
structure Registry where
  watches : List DirWatch
  size : Nat
deriving DecidableEq, Repr

/-- Read slot `i` of the array.  Out-of-range reads are undefined
behaviour in C and never occur on the paths we model; the default value
is an inert tombstone. -/
def watchAt (l : List DirWatch) (i : Nat) : DirWatch :=
  (l.get? i).getD ⟨-1, none, none, -1⟩

/-- The `add_watch` function (lines 446-494).  The kernel call
`inotify_add_watch` is externalised: its result `wd` is an argument, and
the `wd == -1` branch is the kernel-refusal path returning -1 (here
`none`) with the registry untouched.  Otherwise the lowest slot with
`wd < 0` is reused if one exists; else the node is appended, doubling
`dir_watch_size` when `dir_watch_num + 1 >= dir_watch_size`. -/
def add_watch (st : Registry) (wd : Int) (dirname : String)
    (destname : Option String) (par : Int) : Option (Registry × Nat) :=
  if wd = -1 then none
  else if st.watches.findIdx (fun w => w.wd < 0) = st.watches.length then
    some (⟨st.watches ++ [⟨wd, some dirname, destname, par⟩],
           if st.watches.length + 1 ≥ st.size then st.size * 2 else st.size⟩,
          st.watches.findIdx (fun w => w.wd < 0))
  else
    some (⟨st.watches.set (st.watches.findIdx (fun w => w.wd < 0))
             ⟨wd, some dirname, destname, par⟩, st.size⟩,
          st.watches.findIdx (fun w => w.wd < 0))

/-- The `get_dirwatch_offset` function (lines 681-694): first slot whose
`wd` field equals the event's watch descriptor, `none` when there is no
match. -/
def get_dirwatch_offset (l : List DirWatch) (wd : Int) : Option Nat :=
  l.findIdx? (fun w => w.wd == wd)

/-! ## Path Builder (`buildpath`, lines 506-556) -/

/-- The chain of nodes from `watch` up to the root, leaf first: the C
loop `for (p = watch; p != -1; p = dir_watches[p].parent)`.  A negative
index stops the walk (-1 is the root sentinel; any other negative or
out-of-range index would be undefined behaviour in C and never occurs on
live nodes).  `fuel` bounds the walk; callers pass `l.length + 1`, enough
for every acyclic parent chain (a cyclic chain would make the C loop spin
forever). -/
def chainNodes (l : List DirWatch) : Nat → Int → List DirWatch
  | 0, _ => []
  | fuel + 1, p =>
    if p < 0 then []
    else
      match l.get? p.toNat with
      | none => []
      | some w => w :: chainNodes l fuel w.parent

/-- The per-segment name selection of line 534:
`(prefix && dir_watches[p].destname) ? destname : dirname`.  A live
node's `dirname` is never NULL; `getD ""` is the (unreachable) NULL
default. -/
def segName (usePfx : Bool) (w : DirWatch) : String :=
  match usePfx, w.destname with
  | true, some d => d
  | _, _ => w.dirname.getD ""

/-- The segment loop of lines 527-544: for each segment, fail when
`strlen(pathname) + strlen(tmpname) + 2 >= pathsize`, else append the
segment and a `/`.  The state is the buffer contents and the maximum
buffer occupancy so far in bytes (string length plus the terminating
NUL), which records how many bytes `strcat` has written. -/
def addSegs (pathsize : Nat) : List String → String → Nat → Bool × String × Nat
  | [], buf, mw => (true, buf, mw)
  | s :: rest, buf, mw =>
    if buf.length + s.length + 2 ≥ pathsize then (false, buf, mw)
    else addSegs pathsize rest (buf ++ s ++ "/") (max mw (buf.length + s.length + 2))

/-- Result of one `buildpath` call: the boolean return value, the final
contents of the destination buffer (which the callers use even after a
failure), and the maximum occupancy of the buffer in bytes during the
call.  `maxWrite > pathsize` means the function wrote past the end of
the destination buffer. -/
structure BuildResult where
  ok : Bool
  path : String
  maxWrite : Nat
deriving DecidableEq, Repr

/-- The `buildpath` function (lines 506-556).  `pathname[0] = 0` makes
the occupancy 1; the prefix is then `strcat`ed with no bounds check
(occupancy `len(pfx) + 1`); the parent-stack segments are appended
root-to-leaf through the checked loop; finally the optional `dirname` is
appended behind its own check. -/
def buildpath (l : List DirWatch) (pathsize : Nat) (watch : Int)
    (dirname : Option String) (pfx : Option String) : BuildResult :=
  match addSegs pathsize
      (((chainNodes l (l.length + 1) watch).reverse).map (segName pfx.isSome))
      (pfx.getD "") (max 1 ((pfx.getD "").length + 1)) with
  | (false, b, m) => ⟨false, b, m⟩
  | (true, b, m) =>
    match dirname with
    | none => ⟨true, b, m⟩
    | some dn =>
      if b.length + dn.length + 2 ≥ pathsize then ⟨false, b, m⟩
      else ⟨true, b ++ dn, max m (b.length + dn.length + 1)⟩

/-! ## Exclude-file loading (`parse_exclude_file`, lines 983-1046) -/

/-- The constant MAX_EXCLUDES (line 193). -/
def MAX_EXCLUDES : Nat := 256

/-- Result of parsing the exclude file: the collected directory patterns,
or termination with an exit code. -/
inductive ExcludeResult
  | ok (dirs : List String)
  | fatal (code : Nat)
deriving DecidableEq, Repr

/-- The line loop of `parse_exclude_file` (lines 996-1043).  `acc` is the
`exclude_dirs` array collected so far and the list argument is the
sequence of lines `fgets` delivers (with their trailing newlines).  Per
line: skip if empty; strip one trailing newline; skip if now empty; if
the line ends in `/`, first check `exclude_dir_n + 1 >= MAX_EXCLUDES`
(exiting with code 5 when it holds), then strip the `/`, skip if now
empty, else store the pattern.  Lines not ending in `/` are ignored
here (they are only forwarded to the sync tool via the exclude file
itself). -/
def parse_exclude_lines : List String → List String → ExcludeResult
  | acc, [] => .ok acc
  | acc, line :: rest =>
    if line.length = 0 then parse_exclude_lines acc rest
    else
      let l1 := if line.back = '\n' then line.dropRight 1 else line
      if l1.length = 0 then parse_exclude_lines acc rest
      else if l1.back = '/' then
        if acc.length + 1 ≥ MAX_EXCLUDES then .fatal LSYNCD_TOOMANYDIRECTORYEXCLUDES
        else
          let p := l1.dropRight 1
          if p.length = 0 then parse_exclude_lines acc rest
          else parse_exclude_lines (acc ++ [p]) rest
      else parse_exclude_lines acc rest

/-! ## Subtree install (`add_dirwatch`, lines 567-621) -/

/-- One directory entry as `readdir` reports it: `d_name` and whether
`d_type` is `DT_DIR`. -/
structure DirEnt where
  name : String
  isDir : Bool
deriving DecidableEq, Repr

/-- The `add_dirwatch` function (lines 567-621).  `fs` is the filesystem
oracle (`opendir`/`readdir`: the entry list of an existing directory
path, `none` when `opendir` fails); `kern` is the kernel oracle
(`inotify_add_watch`: the descriptor granted for a path, -1 on refusal).
Steps, in source order: build the path of `dirname` under `parent`
(failure aborts this subtree); return success without inserting when
`dirname` is excluded; add the kernel watch and insert the node
(`add_watch`); check `strlen(pathname) + strlen(dirname) + 2 >
sizeof(pathname)`; enumerate the directory and recurse into every entry
of type directory other than `.` and `..`, threading the registry and
ignoring the recursive calls' boolean results, with the `recursive`
flag passed as `true`.  The `recursive` parameter of the call itself is
used only in a debug log line — the body never branches on it.  The
`keep_going` check of the enumeration loop models the no-signal run.
`fuel` bounds the recursion depth, which the C code bounds by the
(finite) directory tree; the result records the registry and the trace
of granted kernel watches `(path, descriptor)`. -/
def add_dirwatch (cfg : Config) (fs : String → Option (List DirEnt))
    (kern : String → Int) :
    Nat → String → Option String → Bool → Int → Registry →
      Bool × Registry × List (String × Int)
  | 0, _, _, _, _, st => (false, st, [])
  | fuel + 1, dirname, destname, recursive, par, st =>
    match buildpath st.watches PATH_SZ par (some dirname) none with
    | ⟨false, _, _⟩ => (false, st, [])
    | ⟨true, pathname, _⟩ =>
      if cfg.exclude_dirs.contains dirname then (true, st, [])
      else
        match add_watch st (kern pathname) dirname destname par with
        | none => (false, st, [])
        | some (st1, dw) =>
          if pathname.length + dirname.length + 2 > PATH_SZ then
            (false, st1, [(pathname, kern pathname)])
          else
            match fs pathname with
            | none => (false, st1, [(pathname, kern pathname)])
            | some entries =>
              let fin := entries.foldl (fun acc de =>
                if de.isDir && de.name != ".." && de.name != "." then
                  let r := add_dirwatch cfg fs kern fuel de.name none true
                    (Int.ofNat dw) acc.1
                  (r.2.1, acc.2 ++ r.2.2)
                else acc) (st1, [(pathname, kern pathname)])
              (true, fin.1, fin.2)

/-! ## Recursive removal (`remove_dirwatch`, lines 630-672) -/

mutual

/-- The body of `remove_dirwatch` for a resolved slot index `dw` (the
`name == NULL` case, lines 649-671): first the scan
`for (i = 0; i < dir_watch_num; i++)` recursively removes every slot that
is currently live with parent `dw`, then `inotify_rm_watch` is called on
`dw`'s descriptor (recorded in the trace as the pair of the slot index
and the descriptor passed to the kernel), the slot's `wd` is set to -1
and its `dirname`/`destname` storage is released.  `dir_watch_num` never
changes during a removal, so the candidate list `List.range l.length` is
fixed up front.  `fuel` bounds the recursion depth, which the C code
bounds by the (finite, acyclic) tree itself. -/
def remove_by_index : Nat → List DirWatch → Nat → List DirWatch × List (Nat × Int)
  | 0, l, _ => (l, [])
  | fuel + 1, l, dw =>
    let r := remove_children fuel l dw (List.range l.length)
    let w := watchAt r.1 dw
    (r.1.set dw ⟨-1, none, none, w.parent⟩, r.2 ++ [(dw, w.wd)])
  termination_by fuel _ _ => (fuel, 0)

/-- The child scan of `remove_dirwatch` (lines 653-657) over the
remaining candidate indices: each candidate that is live (`wd >= 0`) and
has parent `dw` at the time it is examined is removed recursively
(`remove_dirwatch(NULL, i)`), threading the mutated registry left to
right. -/
def remove_children : Nat → List DirWatch → Nat → List Nat → List DirWatch × List (Nat × Int)
  | _, l, _, [] => (l, [])
  | fuel, l, dw, i :: rest =>
    if 0 ≤ (watchAt l i).wd ∧ (watchAt l i).parent = Int.ofNat dw then
      let r1 := remove_by_index fuel l i
      let r2 := remove_children fuel r1.1 dw rest
      (r2.1, r1.2 ++ r2.2)
    else remove_children fuel l dw rest
  termination_by fuel _ _ cands => (fuel, cands.length + 1)

end

/-- The full `remove_dirwatch` function (lines 630-672).  With a child
basename (`name != NULL`, lines 635-648) the unique live child of
`parent` with that name is looked up first (lowest index); a miss logs an
error and returns false with nothing else done.  With `name == NULL` the
slot `parent` itself is removed.  Returns the C boolean result, the
final registry, and the trace of kernel watch-removal calls. -/
def remove_dirwatch (fuel : Nat) (l : List DirWatch) (name : Option String)
    (par : Int) : Bool × List DirWatch × List (Nat × Int) :=
  match name with
  | some nm =>
    match l.findIdx? (fun w =>
        decide (0 ≤ w.wd ∧ w.parent = par ∧ w.dirname = some nm)) with
    | none => (false, l, [])
    | some dw =>
      let r := remove_by_index fuel l dw
      (true, r.1, r.2)
  | none =>
    let r := remove_by_index fuel l par.toNat
    (true, r.1, r.2)

/-! ## Tree predicates over the registry

These describe the parent forest that `remove_dirwatch` walks; they are
used to state and prove claim C4. -/

/-- Slot `j` is a live child of slot `i`: in range, live, and its
`parent` field points at `i`. -/
def ChildOf (l : List DirWatch) (i j : Nat) : Prop :=
  j < l.length ∧ 0 ≤ (watchAt l j).wd ∧ (watchAt l j).parent = Int.ofNat i

instance (l : List DirWatch) (i j : Nat) : Decidable (ChildOf l i j) := by
  unfold ChildOf; infer_instance

/-- A depth measure certifying that the live parent pointers of `l` are
acyclic: along every live child edge the depth strictly increases. -/
def DepOK (l : List DirWatch) (dep : Nat → Nat) : Prop :=
  ∀ j, j < l.length → 0 ≤ (watchAt l j).wd → 0 ≤ (watchAt l j).parent →
    dep (watchAt l j).parent.toNat < dep j

instance (l : List DirWatch) (dep : Nat → Nat) : Decidable (DepOK l dep) := by
  unfold DepOK; infer_instance

/-- All live depths lie below the bound `B`. -/
def DepBound (l : List DirWatch) (dep : Nat → Nat) (B : Nat) : Prop :=
  ∀ j, j < l.length → 0 ≤ (watchAt l j).wd → dep j < B

instance (l : List DirWatch) (dep : Nat → Nat) (B : Nat) :
    Decidable (DepBound l dep B) := by
  unfold DepBound; infer_instance

/-! ## Master loop (`master_loop`, lines 787-815) -/

/-- One kernel event record (`struct inotify_event`): the descriptor of
the watch it concerns, the event bitmask, and the affected child's
basename (empty when the event concerns the watched directory itself). -/
structure InoEvent where
  wd : Int
  mask : Nat
  name : String
deriving DecidableEq, Repr

/-- One result of the blocking `read` on the inotify descriptor: the
returned length, whether `errno` would be EINTR for a negative return
(available to the model precisely so that theorems can state whether the
code consults it), and the batch of events the buffer holds when the
length is positive. -/
structure KRead where
  len : Int
  eintr : Bool
  batch : List InoEvent
deriving DecidableEq, Repr

/-- The `master_loop` function (lines 787-815), abstracted over the
per-event processing `h` (instantiated by `handle_event`, whose return
value the loop ignores) acting on a state `σ` standing for the mutable
globals.  The list argument is the sequence of read results the kernel
will deliver; its exhaustion models `keep_going` being cleared between
batches.  A negative read length returns false — the code does not
examine `errno`, so `r.eintr` is never consulted; a zero read length
("eof?") returns false; otherwise the events of the batch are dispatched
in delivery order. -/
def master_loop {σ : Type} (h : InoEvent → σ → σ) (st : σ) :
    List KRead → Bool × σ
  | [] => (true, st)
  | r :: rest =>
    if r.len < 0 then (false, st)
    else if r.len = 0 then (false, st)
    else master_loop h (r.batch.foldl (fun s e => h e s) st) rest

/-! ## Event dispatch (`handle_event`, lines 701-782) -/

/-- The mask lsyncd syncs on (line 762):
`IN_CREATE | IN_CLOSE_WRITE | IN_DELETE | IN_MOVED_TO | IN_MOVED_FROM`. -/
def syncMask : Nat :=
  IN_CREATE ||| IN_CLOSE_WRITE ||| IN_DELETE ||| IN_MOVED_TO ||| IN_MOVED_FROM

/-- One call of the Sync Invoker as issued by the dispatcher: source,
destination, the recursive flag, and the boolean `rsync` returned. -/
structure SyncCall where
  src : String
  dest : String
  recursive : Bool
  result : Bool
deriving DecidableEq, Repr

/-- Result of one `handle_event` call: the registry after the
CREATE/DELETE mutations, the rsync calls issued in order, the exit code
if the process terminated (`exit(LSYNCD_EXECRSYNCFAIL)`), and the
(ignored) boolean return value. -/
structure HEResult where
  reg : Registry
  syncs : List SyncCall
  exitCode : Option Nat
  ret : Bool
deriving DecidableEq, Repr

/-- The sync stage of `handle_event` (lines 752-779), factored out over
the registry state `reg2` left by the CREATE/DELETE mutations: build the
resolved node's source and destination paths (failure returns false
before any sync); if the mask intersects `syncMask`, sync
non-recursively, and on failure retry recursively one level up when the
node's parent index is not -1 — the retry's `buildpath` results are
used without checking their status — exiting with code 3 when the retry
also fails. -/
def sync_stage (cfg : Config) (reg2 : Registry) (i : Nat) (mask : Nat)
    (e1 e2 : Nat) : HEResult :=
  match buildpath reg2.watches PATH_SZ (Int.ofNat i) none none with
  | ⟨false, _, _⟩ => ⟨reg2, [], none, false⟩
  | ⟨true, pathname, _⟩ =>
    match buildpath reg2.watches PATH_SZ (Int.ofNat i) none
        (some cfg.option_target) with
    | ⟨false, _, _⟩ => ⟨reg2, [], none, false⟩
    | ⟨true, destname, _⟩ =>
      if mask &&& syncMask ≠ 0 then
        if (rsync cfg pathname destname false e1).ret then
          ⟨reg2, [⟨pathname, destname, false, true⟩], none, false⟩
        else if (watchAt reg2.watches i).parent ≠ -1 then
          let pp := (buildpath reg2.watches PATH_SZ
            (watchAt reg2.watches i).parent none none).path
          let pd := (buildpath reg2.watches PATH_SZ
            (watchAt reg2.watches i).parent none
            (some cfg.option_target)).path
          if (rsync cfg pp pd true e2).ret then
            ⟨reg2, [⟨pathname, destname, false, false⟩, ⟨pp, pd, true, true⟩],
             none, false⟩
          else
            ⟨reg2, [⟨pathname, destname, false, false⟩, ⟨pp, pd, true, false⟩],
             some LSYNCD_EXECRSYNCFAIL, false⟩
        else ⟨reg2, [⟨pathname, destname, false, false⟩], none, false⟩
      else ⟨reg2, [], none, false⟩

/-- The `handle_event` function (lines 701-782).  The `masktext` debug
assembly of lines 712-726 is log-only and omitted: its overflow guard
cannot fire (all mask texts joined measure 127 bytes against the
255-byte buffer).  Steps, in source order: drop IN_IGNORED events; drop
events whose name is excluded; resolve the descriptor (a miss returns
false); on a directory CREATE/MOVED_TO install the named child's subtree
under the resolved node with `recursive = false`, ignoring its result;
on a directory DELETE/MOVED_FROM remove the named child recursively;
then run the sync stage `sync_stage` on the resulting registry.
`e1`/`e2` are the child exit statuses of the two possible rsync spawns;
the final `return 0` is `false`. -/
def handle_event (cfg : Config) (fs : String → Option (List DirEnt))
    (kern : String → Int) (fuel : Nat) (reg : Registry) (ev : InoEvent)
    (e1 e2 : Nat) : HEResult :=
  if ev.mask &&& IN_IGNORED ≠ 0 then ⟨reg, [], none, true⟩
  else if cfg.exclude_dirs.contains ev.name then ⟨reg, [], none, true⟩
  else
    match get_dirwatch_offset reg.watches ev.wd with
    | none => ⟨reg, [], none, false⟩
    | some i =>
      let reg1 :=
        if ev.mask &&& (IN_CREATE ||| IN_MOVED_TO) ≠ 0 ∧ ev.mask &&& IN_ISDIR ≠ 0
        then (add_dirwatch cfg fs kern fuel ev.name none false (Int.ofNat i) reg).2.1
        else reg
      let reg2 :=
        if ev.mask &&& (IN_DELETE ||| IN_MOVED_FROM) ≠ 0 ∧ ev.mask &&& IN_ISDIR ≠ 0
        then ⟨(remove_dirwatch fuel reg1.watches (some ev.name) (Int.ofNat i)).2.1,
              reg1.size⟩
        else reg1
      sync_stage cfg reg2 i ev.mask e1 e2

/-! ## Theorems for claims C2 and C6 -/

/-- C2: for every call of the Sync Invoker the child's exit status maps
zero to `ok`, the reserved sentinel 255 to `fatal` (a branch distinct from
`transient`), and any other non-zero status to `transient`; and when the
dry-run flag is set the invoker returns ok (true) without spawning any
child process. -/
theorem c2_exit_status_mapping (cfg : Config) (src dest : String)
    (recursive : Bool) (status : Nat) :
    (rsync cfg src dest recursive status).outcome =
      (if cfg.flag_dryrun then SyncOutcome.ok
       else if status = LSYNCD_INTERNALFAIL then SyncOutcome.fatal
       else if status ≠ 0 then SyncOutcome.transient
       else SyncOutcome.ok)
    ∧ (rsync cfg src dest recursive status).spawned = !cfg.flag_dryrun
    ∧ (rsync cfg src dest recursive status).ret
        = (cfg.flag_dryrun || decide (status = 0))
    ∧ SyncOutcome.fatal ≠ SyncOutcome.transient := by
  refine ⟨?_, ?_, ?_, by simp⟩ <;>
    · unfold rsync
      by_cases hd : cfg.flag_dryrun <;>
        by_cases h255 : status = LSYNCD_INTERNALFAIL <;>
          by_cases h0 : status = 0 <;>
            simp_all [LSYNCD_INTERNALFAIL]

/-- C6: the argument vector handed to the external binary has the fixed
positional shape: the binary path, then `--delete`, then `-ltr` iff the
call is recursive and `-ltd` otherwise, then the pair
`--exclude-from <path>` present iff an exclude file was configured, then
the source directory, then the destination directory. -/
theorem c6_argv_shape (cfg : Config) (src dest : String)
    (recursive : Bool) (status : Nat) :
    (rsync cfg src dest recursive status).argv =
      [cfg.rsync_binary, "--delete", if recursive then "-ltr" else "-ltd"]
      ++ (match cfg.exclude_file with
          | some f => ["--exclude-from", f]
          | none => [])
      ++ [src, dest] := by
  cases hx : cfg.exclude_file <;> cases recursive <;>
    · unfold rsync rsyncArgv
      by_cases hd : cfg.flag_dryrun <;>
        by_cases h255 : status = LSYNCD_INTERNALFAIL <;>
          by_cases h0 : status = 0 <;>
            simp_all

/-! ## Theorems for claim C3 -/

/-- Reading a slot below the length is reading the list element. -/
theorem watchAt_of_lt {l : List DirWatch} {j : Nat} (h : j < l.length) :
    watchAt l j = l[j] := by
  simp [watchAt, List.get?_eq_getElem?, List.getElem?_eq_getElem h]

/-- C3 counterexample: `add_watch` never fails with a DuplicateDescriptor
error.  Starting from the empty registry (capacity 2, as `main` sets up),
inserting descriptor 5 and then inserting descriptor 5 again both
succeed, leaving two live nodes that hold the same kernel descriptor. -/
theorem c3_counterexample :
    add_watch ⟨[], 2⟩ 5 "a" none (-1)
        = some (⟨[⟨5, some "a", none, -1⟩], 2⟩, 0)
    ∧ add_watch ⟨[⟨5, some "a", none, -1⟩], 2⟩ 5 "b" none (-1)
        = some (⟨[⟨5, some "a", none, -1⟩, ⟨5, some "b", none, -1⟩], 4⟩, 1) := by
  decide

/-- C3 (amended): when the kernel grants the watch, insertion always
succeeds — no duplicate-descriptor check is performed.  If a tombstoned
slot exists the lowest-indexed one is reused (all slots below the chosen
index are live, and in the reuse case the chosen slot was tombstoned and
length and capacity are unchanged); otherwise the node is appended, with
the capacity doubling exactly when `num + 1 ≥ size`; existing indices
keep their contents in both cases. -/
theorem c3_insert_amended (st : Registry) (wd : Int) (dirname : String)
    (destname : Option String) (par : Int) (hwd : wd ≠ -1) :
    ∃ st' idx,
      add_watch st wd dirname destname par = some (st', idx)
      ∧ (∀ j, j < st.watches.length → j ≠ idx →
          watchAt st'.watches j = watchAt st.watches j)
      ∧ watchAt st'.watches idx = ⟨wd, some dirname, destname, par⟩
      ∧ (∀ j, j < idx → 0 ≤ (watchAt st.watches j).wd)
      ∧ (idx < st.watches.length →
          (watchAt st.watches idx).wd < 0
          ∧ st'.watches.length = st.watches.length
          ∧ st'.size = st.size)
      ∧ (idx = st.watches.length →
          (∀ j, j < st.watches.length → 0 ≤ (watchAt st.watches j).wd)
          ∧ st'.watches.length = st.watches.length + 1
          ∧ st'.size = (if st.watches.length + 1 ≥ st.size then st.size * 2
                        else st.size))
      ∧ idx ≤ st.watches.length := by
  have hle : List.findIdx (fun w => w.wd < 0) st.watches ≤ st.watches.length :=
    List.findIdx_le_length _
  have hbelow : ∀ j, j < List.findIdx (fun w => w.wd < 0) st.watches →
      0 ≤ (watchAt st.watches j).wd := by
    intro j hj
    have hjl : j < st.watches.length := lt_of_lt_of_le hj hle
    have hnp := List.not_of_lt_findIdx hj
    rw [watchAt_of_lt hjl]
    simpa using hnp
  by_cases hcase :
      List.findIdx (fun w => w.wd < 0) st.watches = st.watches.length
  · refine ⟨⟨st.watches ++ [⟨wd, some dirname, destname, par⟩],
        if st.watches.length + 1 ≥ st.size then st.size * 2 else st.size⟩,
      List.findIdx (fun w => w.wd < 0) st.watches,
      ?_, ?_, ?_, hbelow, ?_, ?_, hle⟩
    · rw [add_watch, if_neg hwd, if_pos hcase]
    · intro j hj _
      simp [watchAt, List.get?_eq_getElem?, List.getElem?_append_left hj]
    · rw [hcase]
      simp [watchAt, List.get?_eq_getElem?, List.getElem?_concat_length]
    · intro h; omega
    · intro _
      exact ⟨hcase ▸ hbelow, by simp, rfl⟩
  · have hlt : List.findIdx (fun w => w.wd < 0) st.watches < st.watches.length :=
      lt_of_le_of_ne hle hcase
    refine ⟨⟨st.watches.set (List.findIdx (fun w => w.wd < 0) st.watches)
          ⟨wd, some dirname, destname, par⟩, st.size⟩,
      List.findIdx (fun w => w.wd < 0) st.watches,
      ?_, ?_, ?_, hbelow, ?_, ?_, hle⟩
    · rw [add_watch, if_neg hwd, if_neg hcase]
    · intro j _ hne
      simp [watchAt, List.get?_eq_getElem?, List.getElem?_set_ne (Ne.symm hne)]
    · simp [watchAt, List.get?_eq_getElem?, List.getElem?_set_self hlt]
    · intro _
      refine ⟨?_, by simp, rfl⟩
      have hp := List.findIdx_getElem (w := hlt)
      rw [watchAt_of_lt hlt]
      simpa using hp
    · intro h; omega

/-- A concrete three-slot registry (live root, tombstoned slot, live
child) used as the witness input for claim C3. -/
def c3reg : Registry :=
  ⟨[⟨7, some "r", none, -1⟩, ⟨-1, none, none, 0⟩, ⟨9, some "c", none, 0⟩], 4⟩

/-- Witness for `c3_insert_amended` at the concrete registry `c3reg`. -/
theorem c3_insert_amended_witness :
    (5 : Int) ≠ -1 ∧
    (∃ st' idx,
      add_watch c3reg 5 "a" none 0 = some (st', idx)
      ∧ (∀ j, j < c3reg.watches.length → j ≠ idx →
          watchAt st'.watches j = watchAt c3reg.watches j)
      ∧ watchAt st'.watches idx = ⟨5, some "a", none, 0⟩
      ∧ (∀ j, j < idx → 0 ≤ (watchAt c3reg.watches j).wd)
      ∧ (idx < c3reg.watches.length →
          (watchAt c3reg.watches idx).wd < 0
          ∧ st'.watches.length = c3reg.watches.length
          ∧ st'.size = c3reg.size)
      ∧ (idx = c3reg.watches.length →
          (∀ j, j < c3reg.watches.length → 0 ≤ (watchAt c3reg.watches j).wd)
          ∧ st'.watches.length = c3reg.watches.length + 1
          ∧ st'.size = (if c3reg.watches.length + 1 ≥ c3reg.size
                        then c3reg.size * 2 else c3reg.size))
      ∧ idx ≤ c3reg.watches.length) :=
  ⟨by decide, c3_insert_amended c3reg 5 "a" none 0 (by decide)⟩

/-! ## Theorems for claim C5 -/

/-- C5 (code bug): the prefix is `strcat`ed into the destination buffer
with no bounds check.  With the single live root node named "a" and a
destination prefix of `PATH_SZ` characters (a command-line target string
of PATH_MAX + 1 bytes), the assembled string exceeds the platform path
limit, so the claim requires the call to fail without writing past the
buffer — but the call writes `PATH_SZ + 1` bytes into the
`PATH_SZ`-byte buffer before the first length check runs (it does
return false afterwards). -/
theorem c5_overflow_at_failing_input :
    ((String.mk (List.replicate PATH_SZ 'x') ++ "a" ++ "/").length > PATH_MAX)
    ∧ (buildpath [⟨1, some "a", none, -1⟩] PATH_SZ 0 none
        (some (String.mk (List.replicate PATH_SZ 'x'))))
      = ⟨false, String.mk (List.replicate PATH_SZ 'x'), PATH_SZ + 1⟩
    ∧ PATH_SZ + 1 > PATH_SZ := by
  have hlen : (String.mk (List.replicate PATH_SZ 'x')).length = PATH_SZ := by
    show (List.replicate PATH_SZ 'x').length = PATH_SZ
    exact List.length_replicate PATH_SZ 'x'
  refine ⟨?_, ?_, by omega⟩
  · rw [String.length_append, String.length_append, hlen]
    show PATH_SZ + "a".length + "/".length > PATH_MAX
    decide
  · have hsegs : (((chainNodes [⟨1, some "a", none, -1⟩]
        ([(⟨1, some "a", none, -1⟩ : DirWatch)].length + 1) 0).reverse).map
          (segName (some (String.mk (List.replicate PATH_SZ 'x'))).isSome))
        = ["a"] := by decide
    have hgetD : ((some (String.mk (List.replicate PATH_SZ 'x'))).getD "")
        = String.mk (List.replicate PATH_SZ 'x') := rfl
    have hmax : max 1 ((String.mk (List.replicate PATH_SZ 'x')).length + 1)
        = PATH_SZ + 1 := by
      rw [hlen]
      omega
    have haddsegs : addSegs PATH_SZ ["a"] (String.mk (List.replicate PATH_SZ 'x'))
        (PATH_SZ + 1) = (false, String.mk (List.replicate PATH_SZ 'x'), PATH_SZ + 1) := by
      simp only [addSegs]
      rw [if_pos (by rw [hlen]; decide)]
    simp only [buildpath]
    rw [hsegs, hgetD, hmax, haddsegs]

/-! ## Theorems for claims C7 and C8 -/

set_option maxRecDepth 30000 in
/-- C7 (code bug): the guard `exclude_dir_n + 1 >= MAX_EXCLUDES` fires
already on the 256th directory pattern, so an exclude file of exactly 256
directory lines terminates with exit code 5 even though it does not
exceed the documented cap of 256, while 255 directory lines are accepted
in full.  The code's own error message ("can only have 256 at the most")
and the size-256 `exclude_dirs` array say the cap was meant to be 256. -/
theorem c7_cap_off_by_one :
    parse_exclude_lines [] (List.replicate MAX_EXCLUDES "a/\n")
      = ExcludeResult.fatal LSYNCD_TOOMANYDIRECTORYEXCLUDES
    ∧ parse_exclude_lines [] (List.replicate (MAX_EXCLUDES - 1) "a/\n")
      = ExcludeResult.ok (List.replicate (MAX_EXCLUDES - 1) "a") := by
  decide

/-- C8 counterexample: a read interrupted by a signal (negative length,
EINTR) does terminate the loop with failure, contrary to the claim that
interrupted reads are not fatal. -/
theorem c8_counterexample :
    master_loop (fun _ n => n + 1) (0 : Nat) [⟨-1, true, []⟩] = (false, 0) := by
  decide

/-- C8 (amended): a read returning zero is fatal (the loop reports
failure), and every negative read result is fatal as well — the code
returns failure without examining errno, so interrupted-by-signal reads
are not exempt. -/
theorem c8_read_failure_amended {σ : Type} (h : InoEvent → σ → σ) (st : σ)
    (r : KRead) (rest : List KRead) (hneg : r.len ≤ 0) :
    master_loop h st (r :: rest) = (false, st) := by
  simp only [master_loop]
  by_cases h1 : r.len < 0
  · simp [h1]
  · have h2 : r.len = 0 := by omega
    simp [h1, h2]

/-- Witness for `c8_read_failure_amended`: an EINTR-interrupted read in
front of further batches. -/
theorem c8_read_failure_amended_witness :
    ((-1 : Int) ≤ 0)
    ∧ master_loop (fun _ n => n + 1) (0 : Nat)
        [⟨-1, true, []⟩, ⟨1, false, [⟨1, 8, "f"⟩]⟩] = (false, 0) :=
  ⟨by decide,
   c8_read_failure_amended (fun _ n => n + 1) 0 ⟨-1, true, []⟩
     [⟨1, false, [⟨1, 8, "f"⟩]⟩] (by decide)⟩

/-! ## Theorem for claim C10 -/

/-- C10: when `remove_dirwatch` is invoked with a child basename that
matches no live child of the given parent, it returns failure and the
registry is left entirely unchanged — no slot is tombstoned, no
kernel-watch removal is issued (empty trace), and no storage is
released. -/
theorem c10_lookup_miss_unchanged (fuel : Nat) (l : List DirWatch)
    (nm : String) (par : Int)
    (hmiss : l.findIdx? (fun w =>
        decide (0 ≤ w.wd ∧ w.parent = par ∧ w.dirname = some nm)) = none) :
    remove_dirwatch fuel l (some nm) par = (false, l, []) := by
  simp only [remove_dirwatch]
  rw [hmiss]

/-- Witness for `c10_lookup_miss_unchanged`: a registry holding a root
and its child "a"; removing a child named "b" of the root misses. -/
theorem c10_lookup_miss_unchanged_witness :
    ([⟨3, some "r", none, -1⟩, ⟨4, some "a", none, 0⟩] :
        List DirWatch).findIdx? (fun w =>
        decide (0 ≤ w.wd ∧ w.parent = 0 ∧ w.dirname = some "b")) = none
    ∧ remove_dirwatch 2 [⟨3, some "r", none, -1⟩, ⟨4, some "a", none, 0⟩]
        (some "b") 0
      = (false, [⟨3, some "r", none, -1⟩, ⟨4, some "a", none, 0⟩], []) :=
  ⟨by decide,
   c10_lookup_miss_unchanged 2 [⟨3, some "r", none, -1⟩, ⟨4, some "a", none, 0⟩]
     "b" 0 (by decide)⟩

/-! ## Lemmas for claim C4: reading and writing single slots -/

/-- Setting a slot leaves every other slot unchanged. -/
theorem watchAt_set_of_ne {l : List DirWatch} {i j : Nat} (v : DirWatch)
    (h : j ≠ i) : watchAt (l.set i v) j = watchAt l j := by
  simp [watchAt, List.get?_eq_getElem?, List.getElem?_set_ne (Ne.symm h)]

/-- Setting an in-range slot stores the value there. -/
theorem watchAt_set_self {l : List DirWatch} {i : Nat} (v : DirWatch)
    (h : i < l.length) : watchAt (l.set i v) i = v := by
  simp [watchAt, List.get?_eq_getElem?, List.getElem?_set_self h]

/-- Out-of-range reads give the inert default. -/
theorem watchAt_of_le {l : List DirWatch} {i : Nat} (h : l.length ≤ i) :
    watchAt l i = ⟨-1, none, none, -1⟩ := by
  simp [watchAt, List.get?_eq_getElem?, List.getElem?_eq_none h]

/-- Writing back the value a slot already holds changes nothing. -/
theorem set_watchAt_eq_self {l : List DirWatch} {i : Nat} {v : DirWatch}
    (h : watchAt l i = v) : l.set i v = l := by
  apply List.ext_getElem?
  intro n
  rw [List.getElem?_set]
  by_cases hin : i = n
  · subst hin
    by_cases hlt : i < l.length
    · rw [watchAt_of_lt hlt] at h
      simp [hlt, h, List.getElem?_eq_getElem hlt]
    · simp [hlt, List.getElem?_eq_none (by omega : l.length ≤ i)]
  · simp [hin]

/-! ## Lemmas for claim C4: length and frame preservation -/

/-- The child scan preserves the table length, given that each
single-node removal does. -/
theorem remove_children_length_of (fuel : Nat)
    (hri : ∀ l dw, (remove_by_index fuel l dw).1.length = l.length) :
    ∀ (cands : List Nat) (l : List DirWatch) (dw : Nat),
      (remove_children fuel l dw cands).1.length = l.length := by
  intro cands
  induction cands with
  | nil => intro l dw; simp [remove_children]
  | cons i rest ih =>
    intro l dw
    by_cases hc : 0 ≤ (watchAt l i).wd ∧ (watchAt l i).parent = Int.ofNat dw
    · simp only [remove_children, if_pos hc]
      rw [ih, hri]
    · simp only [remove_children, if_neg hc]
      exact ih l dw

/-- Removal preserves the table length (`dir_watch_num` is constant
during a removal). -/
theorem remove_by_index_length :
    ∀ (fuel : Nat) (l : List DirWatch) (dw : Nat),
      (remove_by_index fuel l dw).1.length = l.length := by
  intro fuel
  induction fuel with
  | zero => intro l dw; simp [remove_by_index]
  | succ n ih =>
    intro l dw
    simp only [remove_by_index]
    rw [List.length_set]
    exact remove_children_length_of n ih _ l dw

/-- The child scan preserves the table length. -/
theorem remove_children_length (fuel : Nat) (cands : List Nat)
    (l : List DirWatch) (dw : Nat) :
    (remove_children fuel l dw cands).1.length = l.length :=
  remove_children_length_of fuel (fun l dw => remove_by_index_length fuel l dw)
    cands l dw

/-- What any sequence of removal steps can do to a slot: the parent
field never changes, and a slot that is still live was not touched at
all. -/
def SlotFrame (l l' : List DirWatch) : Prop :=
  ∀ j, (watchAt l' j).parent = (watchAt l j).parent
    ∧ (0 ≤ (watchAt l' j).wd → watchAt l' j = watchAt l j)

theorem slotFrame_refl (l : List DirWatch) : SlotFrame l l :=
  fun _ => ⟨rfl, fun _ => rfl⟩

theorem slotFrame_trans {l m l' : List DirWatch}
    (h1 : SlotFrame l m) (h2 : SlotFrame m l') : SlotFrame l l' := by
  intro j
  refine ⟨(h2 j).1.trans (h1 j).1, ?_⟩
  intro hl
  have e2 := (h2 j).2 hl
  rw [e2] at hl ⊢
  exact (h1 j).2 hl

/-- Tombstoning one slot (keeping its parent field) is a frame step. -/
theorem slotFrame_set_tomb (l : List DirWatch) (i : Nat) :
    SlotFrame l (l.set i ⟨-1, none, none, (watchAt l i).parent⟩) := by
  intro j
  by_cases hji : j = i
  · subst hji
    by_cases hlt : j < l.length
    · rw [watchAt_set_self _ hlt]
      exact ⟨rfl, fun h => by simp at h⟩
    · rw [List.set_eq_of_length_le (by omega)]
      exact ⟨rfl, fun _ => rfl⟩
  · rw [watchAt_set_of_ne _ hji]
    exact ⟨rfl, fun _ => rfl⟩

/-- The child scan satisfies the frame property, given that each
single-node removal does. -/
theorem remove_children_frame_of (fuel : Nat)
    (hri : ∀ l dw, SlotFrame l (remove_by_index fuel l dw).1) :
    ∀ (cands : List Nat) (l : List DirWatch) (dw : Nat),
      SlotFrame l (remove_children fuel l dw cands).1 := by
  intro cands
  induction cands with
  | nil => intro l dw; simp only [remove_children]; exact slotFrame_refl l
  | cons i rest ih =>
    intro l dw
    by_cases hc : 0 ≤ (watchAt l i).wd ∧ (watchAt l i).parent = Int.ofNat dw
    · simp only [remove_children, if_pos hc]
      exact slotFrame_trans (hri l i) (ih _ dw)
    · simp only [remove_children, if_neg hc]
      exact ih l dw

/-- Removal satisfies the frame property: parent fields survive, live
slots are untouched. -/
theorem remove_by_index_frame :
    ∀ (fuel : Nat) (l : List DirWatch) (dw : Nat),
      SlotFrame l (remove_by_index fuel l dw).1 := by
  intro fuel
  induction fuel with
  | zero => intro l dw; simp only [remove_by_index]; exact slotFrame_refl l
  | succ n ih =>
    intro l dw
    simp only [remove_by_index]
    exact slotFrame_trans (remove_children_frame_of n ih _ l dw)
      (slotFrame_set_tomb _ dw)

/-- The child scan satisfies the frame property. -/
theorem remove_children_frame (fuel : Nat) (cands : List Nat)
    (l : List DirWatch) (dw : Nat) :
    SlotFrame l (remove_children fuel l dw cands).1 :=
  remove_children_frame_of fuel (fun l dw => remove_by_index_frame fuel l dw)
    cands l dw

/-! ## Lemmas for claim C4: the tree structure -/

/-- Depth measures survive frame steps: liveness only shrinks. -/
theorem depOK_of_frame {l l' : List DirWatch} {dep : Nat → Nat}
    (hlen : l'.length = l.length) (hf : SlotFrame l l') (h : DepOK l dep) :
    DepOK l' dep := by
  intro j hj hw hp
  have he := (hf j).2 hw
  rw [he] at hw hp ⊢
  exact h j (by omega) hw hp

/-- Depth bounds survive frame steps. -/
theorem depBound_of_frame {l l' : List DirWatch} {dep : Nat → Nat} {B : Nat}
    (hlen : l'.length = l.length) (hf : SlotFrame l l') (h : DepBound l dep B) :
    DepBound l' dep B := by
  intro j hj hw
  have he := (hf j).2 hw
  rw [he] at hw
  exact h j (by omega) hw

/-- A live child edge after a frame step was already an edge before. -/
theorem childOf_of_frame {l l' : List DirWatch}
    (hlen : l'.length = l.length) (hf : SlotFrame l l') {i j : Nat}
    (h : ChildOf l' i j) : ChildOf l i j := by
  obtain ⟨hjl, hw, hp⟩ := h
  have he := (hf j).2 hw
  rw [he] at hw hp
  exact ⟨by omega, hw, hp⟩

/-- Reachability after a frame step was already present before. -/
theorem rtg_of_frame {l l' : List DirWatch}
    (hlen : l'.length = l.length) (hf : SlotFrame l l') {a b : Nat}
    (h : Relation.ReflTransGen (ChildOf l') a b) :
    Relation.ReflTransGen (ChildOf l) a b :=
  Relation.ReflTransGen.mono (fun _ _ hc => childOf_of_frame hlen hf hc) h

/-- Along a live child edge the depth measure strictly increases. -/
theorem depOK_child {l : List DirWatch} {dep : Nat → Nat} (h : DepOK l dep)
    {i j : Nat} (hc : ChildOf l i j) : dep i < dep j := by
  obtain ⟨hj, hw, hp⟩ := hc
  have hd := h j hj hw (by rw [hp]; exact Int.ofNat_nonneg i)
  rwa [hp, show (Int.ofNat i).toNat = i from rfl] at hd

/-- Along reachability the depth measure weakly increases. -/
theorem rtg_dep_le {l : List DirWatch} {dep : Nat → Nat} (h : DepOK l dep)
    {a b : Nat} (hr : Relation.ReflTransGen (ChildOf l) a b) :
    dep a ≤ dep b := by
  induction hr with
  | refl => exact le_refl _
  | tail _ hstep ih => exact le_trans ih (le_of_lt (depOK_child h hstep))

/-- A node's live parent is unique. -/
theorem childOf_unique {l : List DirWatch} {i1 i2 j : Nat}
    (h1 : ChildOf l i1 j) (h2 : ChildOf l i2 j) : i1 = i2 := by
  have h := h1.2.2.symm.trans h2.2.2
  exact Int.ofNat.inj h

/-- Two ancestors of the same node are comparable: the parent chain from
any node is unique. -/
theorem rtg_comparable {l : List DirWatch} {a b j : Nat}
    (h1 : Relation.ReflTransGen (ChildOf l) a j) :
    ∀ (_ : Relation.ReflTransGen (ChildOf l) b j),
      Relation.ReflTransGen (ChildOf l) a b
      ∨ Relation.ReflTransGen (ChildOf l) b a := by
  induction h1 with
  | refl => intro h2; exact Or.inr h2
  | tail hab hstep ih =>
    intro h2
    rcases Relation.ReflTransGen.cases_tail h2 with heq | ⟨m2, hbm2, hm2⟩
    · subst heq
      exact Or.inl (hab.tail hstep)
    · have hm : m2 = _ := childOf_unique hm2 hstep
      subst hm
      exact ih hbm2

/-- A child of `dw` is never reachable from a different child of `dw`
(sibling subtrees do not contain each other's roots). -/
theorem sibling_not_rtg {l : List DirWatch} {dep : Nat → Nat}
    (hdep : DepOK l dep) {dw c1 c2 : Nat}
    (h1 : ChildOf l dw c1) (h2 : ChildOf l dw c2) (hne : c1 ≠ c2) :
    ¬ Relation.ReflTransGen (ChildOf l) c1 c2 := by
  intro hr
  rcases Relation.ReflTransGen.cases_tail hr with heq | ⟨k, hk, hstep⟩
  · exact hne heq.symm
  · have hkdw : k = dw := childOf_unique hstep h2
    subst hkdw
    have hle := rtg_dep_le hdep hk
    have hlt := depOK_child hdep h1
    omega

/-- Subtrees of distinct children of the same node are disjoint. -/
theorem sibling_subtree_disjoint {l : List DirWatch} {dep : Nat → Nat}
    (hdep : DepOK l dep) {dw c1 c2 j : Nat}
    (h1 : ChildOf l dw c1) (h2 : ChildOf l dw c2) (hne : c1 ≠ c2)
    (hj1 : Relation.ReflTransGen (ChildOf l) c1 j)
    (hj2 : Relation.ReflTransGen (ChildOf l) c2 j) : False := by
  rcases rtg_comparable hj1 hj2 with h | h
  · exact sibling_not_rtg hdep h1 h2 hne h
  · exact sibling_not_rtg hdep h2 h1 (Ne.symm hne) h

/-- Reachability survives a mutation that avoids the whole subtree of
the start node. -/
theorem rtg_transfer {l l1 : List DirWatch} {rm : List Nat} {c j : Nat}
    (hlen : l1.length = l.length)
    (hun : ∀ m, m ∉ rm → watchAt l1 m = watchAt l m)
    (havoid : ∀ m, Relation.ReflTransGen (ChildOf l) c m → m ∉ rm)
    (h : Relation.ReflTransGen (ChildOf l) c j) :
    Relation.ReflTransGen (ChildOf l1) c j := by
  induction h with
  | refl => exact Relation.ReflTransGen.refl
  | tail hcm hstep ih =>
    refine Relation.ReflTransGen.tail ih ?_
    have hnm := havoid _ (hcm.tail hstep)
    obtain ⟨hjl, hw, hp⟩ := hstep
    have he := hun _ hnm
    exact ⟨by omega, by rw [he]; exact hw, by rw [he]; exact hp⟩

/-- The endpoint of a nonempty reachability chain is live. -/
theorem rtg_live_end {l : List DirWatch} {c j : Nat}
    (h : Relation.ReflTransGen (ChildOf l) c j)
    (hc : 0 ≤ (watchAt l c).wd) : 0 ≤ (watchAt l j).wd := by
  rcases Relation.ReflTransGen.cases_tail h with heq | ⟨k, _, hstep⟩
  · subst heq; exact hc
  · exact hstep.2.1

/-! ## The specification of removal (claim C4)

`RIspec dep l dw out` says that `out = remove_by_index … l dw` removed
exactly `dw` and its live descendants, issued exactly one kernel removal
per removed node carrying that node's descriptor, in an order where no
node precedes its own child and `dw` itself comes last, tombstoned and
freed exactly the removed slots, and touched nothing else. -/

/-- Specification of `remove_by_index` on a live slot `dw` of `l`:
see the section comment. -/
def RIspec (dep : Nat → Nat) (l : List DirWatch) (dw : Nat)
    (out : List DirWatch × List (Nat × Int)) : Prop :=
  (∀ j, j ∈ out.2.map Prod.fst ↔ Relation.ReflTransGen (ChildOf l) dw j)
  ∧ (out.2.map Prod.fst).Nodup
  ∧ (∀ e ∈ out.2, e.2 = (watchAt l e.1).wd)
  ∧ (∀ j ∈ out.2.map Prod.fst,
      watchAt out.1 j = ⟨-1, none, none, (watchAt l j).parent⟩)
  ∧ (∀ j, j ∉ out.2.map Prod.fst → watchAt out.1 j = watchAt l j)
  ∧ (out.2.map Prod.fst).Pairwise (fun a b => (watchAt l b).parent ≠ Int.ofNat a)
  ∧ out.2.getLast? = some (dw, (watchAt l dw).wd)
  ∧ (∀ j ∈ out.2.map Prod.fst, dep dw ≤ dep j ∧ j < l.length)

/-- Specification of the child scan `remove_children` over candidate
indices `cands`: it removes exactly the subtrees of those candidates
that are live children of `dw`. -/
def RCspec (dep : Nat → Nat) (l : List DirWatch) (dw : Nat) (cands : List Nat)
    (out : List DirWatch × List (Nat × Int)) : Prop :=
  (∀ j, j ∈ out.2.map Prod.fst ↔
      ∃ c ∈ cands, ChildOf l dw c ∧ Relation.ReflTransGen (ChildOf l) c j)
  ∧ (out.2.map Prod.fst).Nodup
  ∧ (∀ e ∈ out.2, e.2 = (watchAt l e.1).wd)
  ∧ (∀ j ∈ out.2.map Prod.fst,
      watchAt out.1 j = ⟨-1, none, none, (watchAt l j).parent⟩)
  ∧ (∀ j, j ∉ out.2.map Prod.fst → watchAt out.1 j = watchAt l j)
  ∧ (out.2.map Prod.fst).Pairwise (fun a b => (watchAt l b).parent ≠ Int.ofNat a)
  ∧ (∀ j ∈ out.2.map Prod.fst, dep dw < dep j ∧ j < l.length)

/-- `remove_by_index fuel` meets `RIspec` whenever the depth bound shows
the fuel suffices. -/
def MainRIStmt (fuel : Nat) : Prop :=
  ∀ (l : List DirWatch) (dep : Nat → Nat) (B dw : Nat),
    DepOK l dep → DepBound l dep B → dw < l.length →
    0 ≤ (watchAt l dw).wd → B ≤ fuel + dep dw →
    RIspec dep l dw (remove_by_index fuel l dw)

/-- `remove_children fuel` meets `RCspec` whenever the depth bound shows
the fuel suffices. -/
def MainRCStmt (fuel : Nat) : Prop :=
  ∀ (cands : List Nat) (l : List DirWatch) (dep : Nat → Nat) (B dw : Nat),
    DepOK l dep → DepBound l dep B → (∀ i ∈ cands, i < l.length) →
    cands.Nodup → B ≤ fuel + 1 + dep dw →
    RCspec dep l dw cands (remove_children fuel l dw cands)

/-- With zero fuel the hypotheses are contradictory: a live `dw` has
depth below `B`. -/
theorem mainRI_zero : MainRIStmt 0 := by
  intro l dep B dw _ hB hdw hlive hfuel
  exact absurd (hB dw hdw hlive) (by omega)

/-- The child scan meets `RCspec`, given `MainRIStmt fuel` for the
recursive single-node removals it performs.  The proof threads the
mutated registry left to right: the subtree of each processed live child
is disjoint from its siblings' subtrees (the parent relation is a
forest), so static and dynamic liveness agree at every step. -/
theorem mainRC_of_mainRI (fuel : Nat) (hri : MainRIStmt fuel) :
    MainRCStmt fuel := by
  intro cands
  induction cands with
  | nil =>
    intro l dep B dw _ _ _ _ _
    refine ⟨?_, ?_, ?_, ?_, ?_, ?_, ?_⟩ <;> simp [remove_children]
  | cons i rest ih =>
    intro l dep B dw hdep hB hbounds hnodup hfuel
    have hil : i < l.length := hbounds i (List.mem_cons_self i rest)
    obtain ⟨hinotin, hndrest⟩ := List.nodup_cons.mp hnodup
    have hbrest : ∀ x ∈ rest, x < l.length :=
      fun x hx => hbounds x (List.mem_cons_of_mem i hx)
    by_cases hc : 0 ≤ (watchAt l i).wd ∧ (watchAt l i).parent = Int.ofNat dw
    · -- the candidate is a live child of dw: remove its subtree, then the rest
      have hchild : ChildOf l dw i := ⟨hil, hc.1, hc.2⟩
      have hdepi : dep dw < dep i := depOK_child hdep hchild
      have h1 := hri l dep B i hdep hB hil hc.1 (by omega)
      have hout : remove_children fuel l dw (i :: rest) =
          ((remove_children fuel (remove_by_index fuel l i).1 dw rest).1,
           (remove_by_index fuel l i).2
             ++ (remove_children fuel (remove_by_index fuel l i).1 dw rest).2) := by
        simp only [remove_children, if_pos hc]
      rw [hout]
      set r1 := remove_by_index fuel l i with hr1
      have hlen1 : r1.1.length = l.length := remove_by_index_length fuel l i
      have hframe1 : SlotFrame l r1.1 := remove_by_index_frame fuel l i
      obtain ⟨m1, nd1, vals1, tomb1, unt1, pw1, last1, bnds1⟩ := h1
      have hrest := ih r1.1 dep B dw (depOK_of_frame hlen1 hframe1 hdep)
        (depBound_of_frame hlen1 hframe1 hB)
        (fun x hx => by rw [hlen1]; exact hbrest x hx) hndrest hfuel
      set r2 := remove_children fuel r1.1 dw rest with hr2
      obtain ⟨m2, nd2, vals2, tomb2, unt2, pw2, bnds2⟩ := hrest
      have havoid : ∀ c ∈ rest, ChildOf l dw c →
          ∀ m, Relation.ReflTransGen (ChildOf l) c m →
            m ∉ r1.2.map Prod.fst := by
        intro c hcrest hcc m hrtg hmem
        have hi := (m1 m).mp hmem
        have hci : i ≠ c := fun h => hinotin (h ▸ hcrest)
        exact sibling_subtree_disjoint hdep hchild hcc hci hi hrtg
      have hS2live : ∀ j ∈ r2.2.map Prod.fst, 0 ≤ (watchAt r1.1 j).wd := by
        intro j hj
        obtain ⟨c, _, hcc, hrtg⟩ := (m2 j).mp hj
        exact rtg_live_end hrtg hcc.2.1
      have hS2notS1 : ∀ j ∈ r2.2.map Prod.fst, j ∉ r1.2.map Prod.fst := by
        intro j hj hmem
        have ht := tomb1 j hmem
        have hlv := hS2live j hj
        rw [ht] at hlv
        simp at hlv
      have hS2static : ∀ j, j ∈ r2.2.map Prod.fst ↔
          ∃ c ∈ rest, ChildOf l dw c ∧
            Relation.ReflTransGen (ChildOf l) c j := by
        intro j
        rw [m2 j]
        constructor
        · rintro ⟨c, hcr, hcc, hrtg⟩
          exact ⟨c, hcr, childOf_of_frame hlen1 hframe1 hcc,
            rtg_of_frame hlen1 hframe1 hrtg⟩
        · rintro ⟨c, hcr, hcc, hrtg⟩
          have hcS1 : c ∉ r1.2.map Prod.fst :=
            havoid c hcr hcc c Relation.ReflTransGen.refl
          have hceq := unt1 c hcS1
          refine ⟨c, hcr, ⟨?_, ?_, ?_⟩, ?_⟩
          · rw [hlen1]; exact hcc.1
          · rw [hceq]; exact hcc.2.1
          · rw [hceq]; exact hcc.2.2
          · exact rtg_transfer hlen1 unt1 (havoid c hcr hcc) hrtg
      refine ⟨?_, ?_, ?_, ?_, ?_, ?_, ?_⟩
      · intro j
        simp only [List.map_append, List.mem_append]
        constructor
        · rintro (hj | hj)
          · exact ⟨i, List.mem_cons_self i rest, hchild, (m1 j).mp hj⟩
          · obtain ⟨c, hcr, hcc, hrtg⟩ := (hS2static j).mp hj
            exact ⟨c, List.mem_cons_of_mem i hcr, hcc, hrtg⟩
        · rintro ⟨c, hcmem, hcc, hrtg⟩
          rcases List.mem_cons.mp hcmem with rfl | hcr
          · exact Or.inl ((m1 j).mpr hrtg)
          · exact Or.inr ((hS2static j).mpr ⟨c, hcr, hcc, hrtg⟩)
      · rw [List.map_append]
        exact List.Nodup.append nd1 nd2 (fun a ha hb => hS2notS1 a hb ha)
      · intro e he
        rcases List.mem_append.mp he with h | h
        · exact vals1 e h
        · have hj : e.1 ∈ r2.2.map Prod.fst := List.mem_map_of_mem Prod.fst h
          rw [vals2 e h, unt1 e.1 (hS2notS1 e.1 hj)]
      · intro j hj
        rw [List.map_append] at hj
        rcases List.mem_append.mp hj with h | h
        · have hjS2 : j ∉ r2.2.map Prod.fst := fun h2 => hS2notS1 j h2 h
          rw [unt2 j hjS2, tomb1 j h]
        · rw [tomb2 j h, (hframe1 j).1]
      · intro j hj
        rw [List.map_append] at hj
        have h1m : j ∉ r1.2.map Prod.fst :=
          fun h => hj (List.mem_append.mpr (Or.inl h))
        have h2m : j ∉ r2.2.map Prod.fst :=
          fun h => hj (List.mem_append.mpr (Or.inr h))
        rw [unt2 j h2m, unt1 j h1m]
      · rw [List.map_append, List.pairwise_append]
        refine ⟨pw1, ?_, ?_⟩
        · refine List.Pairwise.imp_of_mem ?_ pw2
          intro a b _ hb hrel
          rwa [unt1 b (hS2notS1 b hb)] at hrel
        · intro a ha b hb
          obtain ⟨c, hcr, hcc, hrtg⟩ := (hS2static b).mp hb
          rcases Relation.ReflTransGen.cases_tail hrtg with heq | ⟨k, hck, hkb⟩
          · subst heq
            intro hcontra
            have hadw : a = dw := by
              have h2 := hcc.2.2
              rw [hcontra] at h2
              exact Int.ofNat.inj h2
            subst hadw
            have hda := (bnds1 a ha).1
            omega
          · intro hcontra
            have hk := hkb.2.2
            rw [hcontra] at hk
            have hak : a = k := Int.ofNat.inj hk
            subst hak
            exact havoid c hcr hcc a hck ha
      · intro j hj
        rw [List.map_append] at hj
        rcases List.mem_append.mp hj with h | h
        · have hb := bnds1 j h
          exact ⟨by omega, hb.2⟩
        · have hb := bnds2 j h
          refine ⟨hb.1, ?_⟩
          rw [← hlen1]
          exact hb.2
    · have hout : remove_children fuel l dw (i :: rest)
          = remove_children fuel l dw rest := by
        simp only [remove_children, if_neg hc]
      rw [hout]
      have hrest := ih l dep B dw hdep hB hbrest hndrest hfuel
      obtain ⟨m, nd, vals, tomb, unt, pw, bnds⟩ := hrest
      refine ⟨?_, nd, vals, tomb, unt, pw, bnds⟩
      intro j
      rw [m j]
      constructor
      · rintro ⟨c, hcr, hcc, hrtg⟩
        exact ⟨c, List.mem_cons_of_mem i hcr, hcc, hrtg⟩
      · rintro ⟨c, hcmem, hcc, hrtg⟩
        rcases List.mem_cons.mp hcmem with rfl | hcr
        · exact absurd ⟨hcc.2.1, hcc.2.2⟩ hc
        · exact ⟨c, hcr, hcc, hrtg⟩

/-- One step: `remove_by_index (fuel+1)` meets `RIspec` given the child
scan at fuel `fuel` meets `RCspec`. -/
theorem mainRI_succ (fuel : Nat) (hrc : MainRCStmt fuel) :
    MainRIStmt (fuel + 1) := by
  intro l dep B dw hdep hB hdw hlive hfuel
  have hrcspec := hrc (List.range l.length) l dep B dw hdep hB
    (fun i hi => List.mem_range.mp hi) (List.nodup_range _) (by omega)
  have hout : remove_by_index (fuel + 1) l dw =
      ((remove_children fuel l dw (List.range l.length)).1.set dw
        ⟨-1, none, none,
          (watchAt (remove_children fuel l dw (List.range l.length)).1 dw).parent⟩,
       (remove_children fuel l dw (List.range l.length)).2
         ++ [(dw, (watchAt (remove_children fuel l dw (List.range l.length)).1 dw).wd)]) := by
    simp only [remove_by_index]
  rw [hout]
  set rc := remove_children fuel l dw (List.range l.length) with hrc0
  obtain ⟨m2, nd2, vals2, tomb2, unt2, pw2, bnds2⟩ := hrcspec
  have hlenc : rc.1.length = l.length :=
    remove_children_length fuel (List.range l.length) l dw
  have hdwnot : dw ∉ rc.2.map Prod.fst := by
    intro h
    have := (bnds2 dw h).1
    omega
  have hwdw : watchAt rc.1 dw = watchAt l dw := unt2 dw hdwnot
  refine ⟨?_, ?_, ?_, ?_, ?_, ?_, ?_, ?_⟩
  · intro j
    simp only [List.map_append, List.mem_append, List.map_cons, List.map_nil,
      List.mem_singleton]
    constructor
    · rintro (hj | hj)
      · obtain ⟨c, _, hcc, hrtg⟩ := (m2 j).mp hj
        exact Relation.ReflTransGen.head hcc hrtg
      · subst hj
        exact Relation.ReflTransGen.refl
    · intro hrtg
      rcases Relation.ReflTransGen.cases_head hrtg with heq | ⟨c, hdc, hcj⟩
      · exact Or.inr heq.symm
      · exact Or.inl ((m2 j).mpr
          ⟨c, List.mem_range.mpr hdc.1, hdc, hcj⟩)
  · rw [List.map_append]
    refine List.Nodup.append nd2 (List.nodup_singleton _) ?_
    intro a ha hb
    rw [List.map_cons, List.map_nil, List.mem_singleton] at hb
    subst hb
    exact hdwnot ha
  · intro e he
    rcases List.mem_append.mp he with h | h
    · exact vals2 e h
    · rw [List.mem_singleton] at h
      subst h
      rw [hwdw]
  · intro j hj
    rw [List.map_append] at hj
    rcases List.mem_append.mp hj with h | h
    · have hne : j ≠ dw := fun he => hdwnot (he ▸ h)
      rw [watchAt_set_of_ne _ hne]
      exact tomb2 j h
    · rw [List.map_cons, List.map_nil, List.mem_singleton] at h
      subst h
      rw [watchAt_set_self _ (by omega), hwdw]
  · intro j hj
    rw [List.map_append] at hj
    have h1m : j ∉ rc.2.map Prod.fst :=
      fun h => hj (List.mem_append.mpr (Or.inl h))
    have h2m : j ≠ dw := by
      intro he
      exact hj (List.mem_append.mpr (Or.inr (by simp [he])))
    rw [watchAt_set_of_ne _ h2m]
    exact unt2 j h1m
  · rw [List.map_append, List.pairwise_append]
    refine ⟨pw2, by simp, ?_⟩
    intro a ha b hb
    rw [List.map_cons, List.map_nil, List.mem_singleton] at hb
    have hbdw : b = dw := hb
    rw [hbdw]
    intro hcontra
    have hcdw : ChildOf l a dw := ⟨hdw, hlive, hcontra⟩
    have h1 := depOK_child hdep hcdw
    have h2 := (bnds2 a ha).1
    omega
  · rw [List.getLast?_concat, hwdw]
  · intro j hj
    rw [List.map_append] at hj
    rcases List.mem_append.mp hj with h | h
    · have hb := bnds2 j h
      exact ⟨le_of_lt hb.1, hb.2⟩
    · rw [List.map_cons, List.map_nil, List.mem_singleton] at h
      subst h
      exact ⟨le_refl _, hdw⟩

/-- `remove_by_index` meets `RIspec` at every sufficient fuel. -/
theorem mainRI : ∀ fuel, MainRIStmt fuel := by
  intro fuel
  induction fuel with
  | zero => exact mainRI_zero
  | succ n ih => exact mainRI_succ n (mainRC_of_mainRI n ih)

/-- A scan over candidates none of which is a live child of `dw` does
nothing. -/
theorem remove_children_no_cands (fuel : Nat) (l : List DirWatch) (dw : Nat) :
    ∀ cands, (∀ i ∈ cands,
        ¬(0 ≤ (watchAt l i).wd ∧ (watchAt l i).parent = Int.ofNat dw)) →
      remove_children fuel l dw cands = (l, []) := by
  intro cands
  induction cands with
  | nil => intro _; simp [remove_children]
  | cons i rest ih =>
    intro h
    simp only [remove_children, if_neg (h i (List.mem_cons_self i rest))]
    exact ih (fun x hx => h x (List.mem_cons_of_mem i hx))

/-- Removing an already-tombstoned slot (no kernel descriptor, storage
already released) that has no live children leaves the registry
entirely unchanged. -/
theorem remove_tombstoned_unchanged (fuel : Nat) (l : List DirWatch) (t : Nat)
    (hwd : (watchAt l t).wd = -1) (hdn : (watchAt l t).dirname = none)
    (hdd : (watchAt l t).destname = none)
    (hnochild : ∀ j, ¬(0 ≤ (watchAt l j).wd ∧ (watchAt l j).parent = Int.ofNat t)) :
    (remove_by_index fuel l t).1 = l := by
  cases fuel with
  | zero => simp [remove_by_index]
  | succ n =>
    simp only [remove_by_index]
    rw [remove_children_no_cands n l t _ (fun i _ => hnochild i)]
    apply set_watchAt_eq_self
    have hself : watchAt l t = ⟨(watchAt l t).wd, (watchAt l t).dirname,
        (watchAt l t).destname, (watchAt l t).parent⟩ := rfl
    rw [hwd, hdn, hdd] at hself
    exact hself

/-! ## Theorem for claim C4 -/

/-- C4: removing a live node removes exactly it and its live descendants
(`RIspec` membership), with every removed child strictly before its
removed parent and the node itself last (bottom-up post-order); exactly
one kernel watch-removal is issued per removed node, carrying that
node's descriptor (`Nodup` trace plus the descriptor equation); each
removed slot has its `dirname`/`destname` storage released and is marked
tombstoned (`wd = -1`); untouched slots are bit-identical; and applying
the removal again to the now-tombstoned slot leaves the registry
unchanged (idempotence).  `DepOK`/`DepBound` certify that the live
parent pointers form a forest of depth below `B` (true of every registry
the daemon builds) and that the fuel covers that depth — the C recursion
needs no fuel because the forest is finite. -/
theorem c4_remove_postorder (fuel : Nat) (l : List DirWatch) (dep : Nat → Nat)
    (B dw : Nat) (hdep : DepOK l dep) (hB : DepBound l dep B)
    (hdw : dw < l.length) (hlive : 0 ≤ (watchAt l dw).wd)
    (hfuel : B ≤ fuel + dep dw) :
    RIspec dep l dw (remove_by_index fuel l dw)
    ∧ ∀ fuel2, (remove_by_index fuel2 (remove_by_index fuel l dw).1 dw).1
        = (remove_by_index fuel l dw).1 := by
  have hspec := mainRI fuel l dep B dw hdep hB hdw hlive hfuel
  refine ⟨hspec, ?_⟩
  intro fuel2
  obtain ⟨m, nd, vals, tomb, unt, pw, last, bnds⟩ := hspec
  have hdwmem : dw ∈ (remove_by_index fuel l dw).2.map Prod.fst :=
    (m dw).mpr Relation.ReflTransGen.refl
  have htomb := tomb dw hdwmem
  apply remove_tombstoned_unchanged
  · rw [htomb]
  · rw [htomb]
  · rw [htomb]
  · intro j hj
    obtain ⟨hjw, hjp⟩ := hj
    by_cases hjmem : j ∈ (remove_by_index fuel l dw).2.map Prod.fst
    · rw [tomb j hjmem] at hjw
      simp at hjw
    · rw [unt j hjmem] at hjw hjp
      have hjl : j < l.length := by
        by_contra hcon
        rw [watchAt_of_le (by omega)] at hjw
        simp at hjw
      have hch : ChildOf l dw j := ⟨hjl, hjw, hjp⟩
      exact hjmem ((m j).mpr (Relation.ReflTransGen.head hch
        Relation.ReflTransGen.refl))

/-- A concrete four-node registry (root, child `a`, grandchild `b` under
`a`, child `c`) used as the witness input for claim C4; node 1 (`a`) is
removed. -/
def c4reg : List DirWatch :=
  [⟨10, some "r", none, -1⟩, ⟨11, some "a", none, 0⟩,
   ⟨12, some "b", none, 1⟩, ⟨13, some "c", none, 0⟩]

/-- Witness for `c4_remove_postorder` at the registry `c4reg`, with the
identity depth measure, bound 4 and fuel 4. -/
theorem c4_remove_postorder_witness :
    DepOK c4reg (fun j => j) ∧ DepBound c4reg (fun j => j) 4
    ∧ 1 < c4reg.length ∧ 0 ≤ (watchAt c4reg 1).wd
    ∧ 4 ≤ 4 + (fun (j : Nat) => j) 1
    ∧ (RIspec (fun j => j) c4reg 1 (remove_by_index 4 c4reg 1)
       ∧ ∀ fuel2, (remove_by_index fuel2 (remove_by_index 4 c4reg 1).1 1).1
           = (remove_by_index 4 c4reg 1).1) :=
  ⟨by decide, by decide, by decide, by decide, by decide,
   c4_remove_postorder 4 c4reg (fun j => j) 4 1 (by decide) (by decide)
     (by decide) (by decide) (by decide)⟩

/-! ## Theorem for claim C9 -/

/-- Configuration used in the concrete C9 instance: no excludes, no
dry-run. -/
def cfg9 : Config := ⟨"/usr/bin/rsync", none, [], false, "t::m/"⟩

/-- Filesystem oracle for the C9 instance: under the root `s`, the
moved-in directory `a` contains a subdirectory `b` and a plain file `f`,
and `b` contains a further subdirectory `c`. -/
def fs9 : String → Option (List DirEnt) := fun p =>
  if p = "s/a" then some [⟨"b", true⟩, ⟨"f", false⟩]
  else if p = "s/a/b" then some [⟨"c", true⟩]
  else if p = "s/a/b/c" then some []
  else none

/-- Kernel oracle for the C9 instance: distinct descriptors for the
three directories, refusal elsewhere. -/
def kern9 : String → Int := fun p =>
  if p = "s/a" then 2
  else if p = "s/a/b" then 3
  else if p = "s/a/b/c" then 4
  else -1

/-- C9: the behaviour of Subtree Install is independent of its
`recursive` argument — the body never branches on it (first conjunct,
for every input).  Consequently a directory CREATE/MOVED_TO event, which
the dispatcher handles with `recursive = false`, still installs watches
over the entire pre-existing subtree: in the concrete instance, the
moved-in `a` gets watches for itself, its subdirectory `b` and its
grandchild `c` (and not for the plain file `f`), with the registry
extended by the three nodes in parent order. -/
theorem c9_recursive_flag_irrelevant :
    (∀ (cfg : Config) (fs : String → Option (List DirEnt))
       (kern : String → Int) (fuel : Nat) (dirname : String)
       (destname : Option String) (r r' : Bool) (par : Int) (st : Registry),
       add_dirwatch cfg fs kern fuel dirname destname r par st
         = add_dirwatch cfg fs kern fuel dirname destname r' par st)
    ∧ add_dirwatch cfg9 fs9 kern9 3 "a" none false 0 ⟨[⟨1, some "s", none, -1⟩], 2⟩
        = (true, ⟨[⟨1, some "s", none, -1⟩, ⟨2, some "a", none, 0⟩,
                   ⟨3, some "b", none, 1⟩, ⟨4, some "c", none, 2⟩], 8⟩,
           [("s/a", 2), ("s/a/b", 3), ("s/a/b/c", 4)]) := by
  constructor
  · intro cfg fs kern fuel dirname destname r r' par st
    cases fuel with
    | zero => rfl
    | succ n => rfl
  · decide

/-! ## Theorem for claim C1 -/

/-- Escalation behaviour of the sync stage, for any registry state
`reg2` the mutations left: a recursive sync appears exactly when the
non-recursive sync failed and the node's parent index is not -1, it is
then unique and of the parent's directory via the Path Builder, exit
code 3 appears exactly when the recursive retry failed, and the
registry is returned unchanged. -/
theorem sync_stage_escalation (cfg : Config) (reg2 : Registry) (i : Nat)
    (mask : Nat) (e1 e2 : Nat) (hmask : mask &&& syncMask ≠ 0) :
    (((sync_stage cfg reg2 i mask e1 e2).syncs.filter
        (fun c => c.recursive)).length
      = if ((sync_stage cfg reg2 i mask e1 e2).syncs.any
              (fun c => !c.recursive && !c.result)) = true
           ∧ (watchAt (sync_stage cfg reg2 i mask e1 e2).reg.watches
                i).parent ≠ -1
        then 1 else 0)
    ∧ (∀ c ∈ (sync_stage cfg reg2 i mask e1 e2).syncs.filter
          (fun c => c.recursive),
        c.src = (buildpath
            (sync_stage cfg reg2 i mask e1 e2).reg.watches PATH_SZ
            (watchAt (sync_stage cfg reg2 i mask e1 e2).reg.watches
              i).parent none none).path
        ∧ c.dest = (buildpath
            (sync_stage cfg reg2 i mask e1 e2).reg.watches PATH_SZ
            (watchAt (sync_stage cfg reg2 i mask e1 e2).reg.watches
              i).parent none (some cfg.option_target)).path)
    ∧ ((sync_stage cfg reg2 i mask e1 e2).exitCode
          = some LSYNCD_EXECRSYNCFAIL
        ↔ ∃ c ∈ (sync_stage cfg reg2 i mask e1 e2).syncs.filter
            (fun c => c.recursive), c.result = false) := by
  unfold sync_stage
  split
  · -- source-path assembly failed: no syncs at all
    simp
  split
  · -- destination-path assembly failed: no syncs at all
    simp
  split
  · split
    · -- non-recursive sync ok: no escalation, no exit
      simp
    · split
      · -- a parent exists: escalate
        rename_i hpar
        dsimp only
        by_cases hr2 : (rsync cfg
            (buildpath reg2.watches PATH_SZ (watchAt reg2.watches i).parent
              none none).path
            (buildpath reg2.watches PATH_SZ (watchAt reg2.watches i).parent
              none (some cfg.option_target)).path true e2).ret = true
        · -- escalation issued, retry ok
          simp only [if_pos hr2]
          refine ⟨by simp [hpar], by simp, by simp⟩
        · -- escalation issued, retry failed: exit 3
          simp only [if_neg hr2]
          refine ⟨by simp [hpar], by simp, by simp [LSYNCD_EXECRSYNCFAIL]⟩
      · -- no parent: no escalation, no exit
        rename_i hpar
        refine ⟨by simp [hpar], by simp, by simp⟩
  · rename_i h
    exact absurd hmask h

/-- C1: for every event whose mask intersects
{CREATE, CLOSE_WRITE, DELETE, MOVED_TO, MOVED_FROM} and that resolves to
a live node `i`: the dispatcher issues a recursive sync exactly when the
non-recursive sync of `i`'s directory did not return ok and `i`'s parent
index (read after the registry mutations) is not -1, and then it issues
exactly one; that recursive sync is of the parent's directory, both
sides built by the Path Builder; and the process exits with code 3
exactly when that recursive retry also fails. -/
theorem c1_parent_retry_escalation (cfg : Config)
    (fs : String → Option (List DirEnt)) (kern : String → Int) (fuel : Nat)
    (reg : Registry) (ev : InoEvent) (e1 e2 : Nat) (i : Nat)
    (hres : get_dirwatch_offset reg.watches ev.wd = some i)
    (hmask : ev.mask &&& syncMask ≠ 0) :
    (((handle_event cfg fs kern fuel reg ev e1 e2).syncs.filter
        (fun c => c.recursive)).length
      = if ((handle_event cfg fs kern fuel reg ev e1 e2).syncs.any
              (fun c => !c.recursive && !c.result)) = true
           ∧ (watchAt (handle_event cfg fs kern fuel reg ev e1 e2).reg.watches
                i).parent ≠ -1
        then 1 else 0)
    ∧ (∀ c ∈ (handle_event cfg fs kern fuel reg ev e1 e2).syncs.filter
          (fun c => c.recursive),
        c.src = (buildpath
            (handle_event cfg fs kern fuel reg ev e1 e2).reg.watches PATH_SZ
            (watchAt (handle_event cfg fs kern fuel reg ev e1 e2).reg.watches
              i).parent none none).path
        ∧ c.dest = (buildpath
            (handle_event cfg fs kern fuel reg ev e1 e2).reg.watches PATH_SZ
            (watchAt (handle_event cfg fs kern fuel reg ev e1 e2).reg.watches
              i).parent none (some cfg.option_target)).path)
    ∧ ((handle_event cfg fs kern fuel reg ev e1 e2).exitCode
          = some LSYNCD_EXECRSYNCFAIL
        ↔ ∃ c ∈ (handle_event cfg fs kern fuel reg ev e1 e2).syncs.filter
            (fun c => c.recursive), c.result = false) := by
  simp only [handle_event, hres]
  split
  · -- IN_IGNORED: event dropped, no syncs, no exit
    simp
  split
  · -- excluded name: event dropped
    simp
  -- the event reached the sync stage on the mutated registry
  exact sync_stage_escalation cfg _ i ev.mask e1 e2 hmask

/-- A concrete two-node registry (root `s`, watched subdirectory `d`)
used as the witness input for claim C1: a CLOSE_WRITE event on `d`'s
watch with a failing non-recursive sync (child exit 1) and a succeeding
recursive retry (child exit 0). -/
def c1reg : Registry :=
  ⟨[⟨5, some "s", none, -1⟩, ⟨6, some "d", none, 0⟩], 4⟩

/-- Witness for `c1_parent_retry_escalation` at the registry `c1reg`. -/
theorem c1_parent_retry_escalation_witness :
    get_dirwatch_offset c1reg.watches (⟨6, IN_CLOSE_WRITE, "f"⟩ : InoEvent).wd
      = some 1
    ∧ (⟨6, IN_CLOSE_WRITE, "f"⟩ : InoEvent).mask &&& syncMask ≠ 0
    ∧ ((((handle_event cfg9 fs9 kern9 4 c1reg ⟨6, IN_CLOSE_WRITE, "f"⟩ 1 0).syncs.filter
          (fun c => c.recursive)).length
        = if ((handle_event cfg9 fs9 kern9 4 c1reg ⟨6, IN_CLOSE_WRITE, "f"⟩ 1 0).syncs.any
                (fun c => !c.recursive && !c.result)) = true
             ∧ (watchAt (handle_event cfg9 fs9 kern9 4 c1reg
                  ⟨6, IN_CLOSE_WRITE, "f"⟩ 1 0).reg.watches 1).parent ≠ -1
          then 1 else 0)
      ∧ (∀ c ∈ (handle_event cfg9 fs9 kern9 4 c1reg
            ⟨6, IN_CLOSE_WRITE, "f"⟩ 1 0).syncs.filter (fun c => c.recursive),
          c.src = (buildpath
              (handle_event cfg9 fs9 kern9 4 c1reg
                ⟨6, IN_CLOSE_WRITE, "f"⟩ 1 0).reg.watches PATH_SZ
              (watchAt (handle_event cfg9 fs9 kern9 4 c1reg
                ⟨6, IN_CLOSE_WRITE, "f"⟩ 1 0).reg.watches 1).parent
              none none).path
          ∧ c.dest = (buildpath
              (handle_event cfg9 fs9 kern9 4 c1reg
                ⟨6, IN_CLOSE_WRITE, "f"⟩ 1 0).reg.watches PATH_SZ
              (watchAt (handle_event cfg9 fs9 kern9 4 c1reg
                ⟨6, IN_CLOSE_WRITE, "f"⟩ 1 0).reg.watches 1).parent
              none (some cfg9.option_target)).path)
      ∧ ((handle_event cfg9 fs9 kern9 4 c1reg
            ⟨6, IN_CLOSE_WRITE, "f"⟩ 1 0).exitCode = some LSYNCD_EXECRSYNCFAIL
          ↔ ∃ c ∈ (handle_event cfg9 fs9 kern9 4 c1reg
              ⟨6, IN_CLOSE_WRITE, "f"⟩ 1 0).syncs.filter
                (fun c => c.recursive), c.result = false)) :=
  ⟨by decide, by decide,
   c1_parent_retry_escalation cfg9 fs9 kern9 4 c1reg ⟨6, IN_CLOSE_WRITE, "f"⟩
     1 0 1 (by decide) (by decide)⟩

end Lsyncd
